import Mathlib

/-!
Verification of the module interchangeability validator
(`module_interchangeability_validator.py`).

The development shallowly embeds the decision logic of the validator:
Python values are modelled by the inductive `PyVal`, Python `ast` trees by
`PyNode`, fingerprints by `ModuleAnalysis`, and every embedded function is
translated clause-by-clause from the corresponding Python function, keeping
the source's names.  Scores use `ℚ` (the source's float arithmetic is exact
on the values involved: tenths and percentages).
-/

namespace MIV

/-- Model of the Python values that flow through the differential tester:
`None`, booleans, integers, strings, lists and string-keyed dicts.  Dicts
are association lists; genuine Python dicts never carry duplicate keys,
which the well-formedness predicate `wfVal` below captures. -/
inductive PyVal where
  | none : PyVal
  | bool (b : Bool) : PyVal
  | int (n : Int) : PyVal
  | str (s : String) : PyVal
  | list (xs : List PyVal) : PyVal
  | dict (entries : List (String × PyVal)) : PyVal

/-- Name of the Python type of a value, as `type(x)` would render it.
`bool` and `int` are distinct types in Python even though `True == 1`. -/
def typeName : PyVal → String
  | .none => "NoneType"
  | .bool _ => "bool"
  | .int _ => "int"
  | .str _ => "str"
  | .list _ => "list"
  | .dict _ => "dict"

/-- First binding of a key in an association list (Python `d[k]` /
`k in d`, returning `Option`). -/
def alookup : List (String × PyVal) → String → Option PyVal
  | [], _ => Option.none
  | (k, v) :: rest, key => if k = key then some v else alookup rest key

/-- Characters removed by Python `str.strip()` (ASCII whitespace). -/
def pyIsSpace (c : Char) : Bool :=
  c == ' ' || c == '\t' || c == '\n' || c == '\r' || c == '\x0b' || c == '\x0c'

/-- Python `s.strip()`: remove leading and trailing whitespace. -/
def pyStrip (s : String) : String :=
  String.mk (((s.toList.dropWhile pyIsSpace).reverse.dropWhile pyIsSpace).reverse)

mutual
/-- Python `==` on the modelled values: numeric cross-equality between
`bool` and `int` (`True == 1`), element-wise equality on lists, and
key-wise equality on dicts (equal size, and every key of the left dict
present in the right with an equal value). -/
def pyEq : PyVal → PyVal → Bool
  | .none, .none => true
  | .bool a, .bool b => a == b
  | .int a, .int b => a == b
  | .bool a, .int b => (if a then (1 : Int) else 0) == b
  | .int a, .bool b => a == (if b then (1 : Int) else 0)
  | .str a, .str b => a == b
  | .list xs, .list ys => pyEqList xs ys
  | .dict d1, .dict d2 => d1.length == d2.length && pyEqEntries d1 d2
  | _, _ => false

/-- Element-wise Python `==` on two lists (false on length mismatch). -/
def pyEqList : List PyVal → List PyVal → Bool
  | [], [] => true
  | x :: xs, y :: ys => pyEq x y && pyEqList xs ys
  | _, _ => false

/-- Every entry of the first dict is present in the second with a
`pyEq`-equal value. -/
def pyEqEntries : List (String × PyVal) → List (String × PyVal) → Bool
  | [], _ => true
  | (k, v) :: rest, d2 =>
    (match alookup d2 k with
     | some w => pyEq v w
     | Option.none => false) && pyEqEntries rest d2
end

/-- Keys of an association list. -/
def keysOf (d : List (String × PyVal)) : List String := d.map Prod.fst

/-- Boolean test that every element of `a` occurs in `b`. -/
def memberAll (a b : List String) : Bool := a.all fun k => b.contains k

/-- Python `set(d1.keys()) == set(d2.keys())`: mutual containment of the
key lists. -/
def keySetEq (a b : List String) : Bool := memberAll a b && memberAll b a

/-- Boolean `List.Nodup` on strings. -/
def keysNodup : List String → Bool
  | [] => true
  | k :: rest => !rest.contains k && keysNodup rest

mutual
/-- Well-formedness: every dict nested inside the value has pairwise
distinct keys, as every genuine Python dict does.  Values violating this
do not arise from Python execution. -/
def wfVal : PyVal → Bool
  | .list xs => wfList xs
  | .dict d => keysNodup (keysOf d) && wfEntries d
  | _ => true

/-- All members of a list are well-formed. -/
def wfList : List PyVal → Bool
  | [] => true
  | x :: xs => wfVal x && wfList xs

/-- All values of an association list are well-formed. -/
def wfEntries : List (String × PyVal) → Bool
  | [] => true
  | (_, v) :: rest => wfVal v && wfEntries rest
end

mutual
/-- Embedding of `DifferentialTester.compare_results`: direct `==`
short-circuits true; a type mismatch short-circuits false; lists compare
length then element-wise; dicts compare key sets then value-wise per key
of the first dict; strings compare stripped; anything else is false.
The Python `try`/`except` that converts a raised comparison error into
`False` corresponds to the `false` fall-through of a failed dict key
lookup. -/
def compareResults (r1 r2 : PyVal) : Bool :=
  if pyEq r1 r2 then true
  else if typeName r1 != typeName r2 then false
  else match r1, r2 with
    | .list xs, .list ys => xs.length == ys.length && compareList xs ys
    | .dict d1, .dict d2 => keySetEq (keysOf d1) (keysOf d2) && compareEntries d1 d2
    | .str s1, .str s2 => pyStrip s1 == pyStrip s2
    | _, _ => false

/-- Element-wise `compare_results` over two lists of equal length
(the caller has already checked the lengths, mirroring the source's
`zip`). -/
def compareList : List PyVal → List PyVal → Bool
  | [], [] => true
  | x :: xs, y :: ys => compareResults x y && compareList xs ys
  | _, _ => false

/-- Per-key `compare_results`: iterate the entries of the first dict
(its keys), comparing each value with the second dict's value at the same
key.  A missing key would raise `KeyError` in the source and be converted
to `False` by its `except` clause. -/
def compareEntries : List (String × PyVal) → List (String × PyVal) → Bool
  | [], _ => true
  | (k, v) :: rest, d2 =>
    (match alookup d2 k with
     | some w => compareResults v w
     | Option.none => false) && compareEntries rest d2
end

/-- Function metadata recorded by `analyze_file_structure` (the
`func_info` dict): positional parameter names, number of defaults,
`*args` / `**kwargs` names, keyword-only parameter names, return
annotation text, docstring, decorator texts, and the async flag. -/
structure FunctionSig where
  name : String
  line : Nat
  args : List String
  defaults : Nat
  varargs : Option String
  kwonlyargs : List String
  kwargs : Option String
  returns : Option String
  docstring : Option String
  decorators : List String
  is_async : Bool
deriving DecidableEq

/-- Method metadata recorded inside a class (`method_info`). -/
structure MethodSig where
  name : String
  args : List String
  is_async : Bool
  docstring : Option String
deriving DecidableEq

/-- Class metadata recorded by `analyze_file_structure` (`class_info`). -/
structure ClassSig where
  name : String
  line : Nat
  bases : List String
  methods : List (String × MethodSig)
  docstring : Option String
  decorators : List String
deriving DecidableEq

/-- Module-level variable metadata (`variables[target.id]`). -/
structure VarBinding where
  value : String
  line : Nat
  typeTag : String
deriving DecidableEq

/-- Fingerprint of one module as used by the compatibility analyses:
the three name-keyed tables of `ModuleAnalysis` that the scorer reads
(`functions`, `classes`, and `vars` standing for the source's `variables`
field, whose name is reserved in this setting).  Python dicts are modelled as
association lists; dict keys are unique by construction.  The remaining
fields of the Python dataclass (imports, file statistics, flags) are not
consulted by any claim. -/
structure ModuleAnalysis where
  functions : List (String × FunctionSig)
  classes : List (String × ClassSig)
  vars : List (String × VarBinding)

/-- Lookup in a generic association list (first binding wins, as in a
Python dict that never holds duplicate keys). -/
def lookupIn {α : Type} : List (String × α) → String → Option α
  | [], _ => Option.none
  | (k, v) :: rest, key => if k = key then some v else lookupIn rest key

/-- Names bound in an association list. -/
def namesOf {α : Type} (m : List (String × α)) : List String := m.map Prod.fst

/-- Difference strings collected for one common function by
`analyze_signatures_compatibility`: one entry per differing field among
`args`, `defaults`, `varargs`, `kwargs`, `returns`, `is_async`
(keyword-only parameters, decorators and docstrings are not compared). -/
def signatureDiff (orig test : FunctionSig) : List String :=
  (if orig.args ≠ test.args then ["Arguments"] else []) ++
  (if orig.defaults ≠ test.defaults then ["Defaults"] else []) ++
  (if orig.varargs ≠ test.varargs then ["*args"] else []) ++
  (if orig.kwargs ≠ test.kwargs then ["**kwargs"] else []) ++
  (if orig.returns ≠ test.returns then ["Return"] else []) ++
  (if orig.is_async ≠ test.is_async then ["Async"] else [])

/-- Result record of `analyze_signatures_compatibility`. -/
structure SigCompatResults where
  compatible_functions : List String
  incompatible_functions : List String
  missing_functions : List String
  extra_functions : List String

/-- Embedding of `analyze_signatures_compatibility`: functions of the
original missing from the test, extra functions of the test, and for the
common names a split into compatible (empty `signatureDiff`) and
incompatible. -/
def analyze_signatures_compatibility (orig test : ModuleAnalysis) : SigCompatResults :=
  let origF := orig.functions
  let testF := test.functions
  { missing_functions := (namesOf origF).filter fun n => !(namesOf testF).contains n
    extra_functions := (namesOf testF).filter fun n => !(namesOf origF).contains n
    compatible_functions := (origF.filter fun p =>
      match lookupIn testF p.1 with
      | some t => (signatureDiff p.2 t).isEmpty
      | Option.none => false).map Prod.fst
    incompatible_functions := (origF.filter fun p =>
      match lookupIn testF p.1 with
      | some t => !(signatureDiff p.2 t).isEmpty
      | Option.none => false).map Prod.fst }

/-- Names of methods common to both classes whose positional-parameter
lists differ; each contributes a `Method <name>` entry to the class
diff. -/
def methodDiffEntries (orig test : ClassSig) : List String :=
  (orig.methods.filter fun p =>
    match lookupIn test.methods p.1 with
    | some m => p.2.args ≠ m.args
    | Option.none => false).map fun p => "Method " ++ p.1

/-- Method names of the original class absent from the test class. -/
def missingMethods (orig test : ClassSig) : List String :=
  (namesOf orig.methods).filter fun n => !(namesOf test.methods).contains n

/-- Method names of the test class absent from the original class. -/
def extraMethods (orig test : ClassSig) : List String :=
  (namesOf test.methods).filter fun n => !(namesOf orig.methods).contains n

/-- Difference strings collected for one common class by
`analyze_classes_compatibility`: a `Bases` entry when the base lists
differ, a `Missing methods` / `Extra methods` entry when the method name
sets differ, and one entry per common method with differing positional
parameters. -/
def classDiff (orig test : ClassSig) : List String :=
  (if orig.bases ≠ test.bases then ["Bases"] else []) ++
  (if !(missingMethods orig test).isEmpty then ["Missing methods"] else []) ++
  (if !(extraMethods orig test).isEmpty then ["Extra methods"] else []) ++
  methodDiffEntries orig test

/-- Result record of `analyze_classes_compatibility`. -/
structure ClassCompatResults where
  compatible_classes : List String
  incompatible_classes : List String
  missing_classes : List String
  extra_classes : List String

/-- Embedding of `analyze_classes_compatibility`: a common class is
compatible exactly when its `classDiff` is empty. -/
def analyze_classes_compatibility (orig test : ModuleAnalysis) : ClassCompatResults :=
  let origC := orig.classes
  let testC := test.classes
  { missing_classes := (namesOf origC).filter fun n => !(namesOf testC).contains n
    extra_classes := (namesOf testC).filter fun n => !(namesOf origC).contains n
    compatible_classes := (origC.filter fun p =>
      match lookupIn testC p.1 with
      | some t => (classDiff p.2 t).isEmpty
      | Option.none => false).map Prod.fst
    incompatible_classes := (origC.filter fun p =>
      match lookupIn testC p.1 with
      | some t => !(classDiff p.2 t).isEmpty
      | Option.none => false).map Prod.fst }

/-- Result record of `analyze_variables_compatibility`. -/
structure VarCompatResults where
  compatible_variables : List String
  missing_variables : List String
  extra_variables : List String
  different_variables : List String

/-- Embedding of `analyze_variables_compatibility`: a common variable is
compatible exactly when its recorded `value` text is equal on both
sides. -/
def analyze_variables_compatibility (orig test : ModuleAnalysis) : VarCompatResults :=
  let origV := orig.vars
  let testV := test.vars
  { missing_variables := (namesOf origV).filter fun n => !(namesOf testV).contains n
    extra_variables := (namesOf testV).filter fun n => !(namesOf origV).contains n
    compatible_variables := (origV.filter fun p =>
      match lookupIn testV p.1 with
      | some t => p.2.value = t.value
      | Option.none => false).map Prod.fst
    different_variables := (origV.filter fun p =>
      match lookupIn testV p.1 with
      | some t => p.2.value ≠ t.value
      | Option.none => false).map Prod.fst }

/-- Total element count of the original fingerprint, as summed by
`calculate_compatibility_score`. -/
def totalElements (orig : ModuleAnalysis) : Nat :=
  orig.functions.length + orig.classes.length + orig.vars.length

/-- Compatible element count summed by `calculate_compatibility_score`. -/
def compatibleElements (orig test : ModuleAnalysis) : Nat :=
  (analyze_signatures_compatibility orig test).compatible_functions.length +
  (analyze_classes_compatibility orig test).compatible_classes.length +
  (analyze_variables_compatibility orig test).compatible_variables.length

/-- Embedding of `calculate_compatibility_score`: 100 when the original
fingerprint is empty, otherwise `compatible / total * 100`. -/
def calculate_compatibility_score (orig test : ModuleAnalysis) : ℚ :=
  if totalElements orig = 0 then 100
  else ((compatibleElements orig test : ℚ) / (totalElements orig : ℚ)) * 100

/-- Record stored per differential case (`DifferentialTestResult`). -/
structure DifferentialTestResult where
  test_name : String
  function_name : String
  original_result : Option PyVal
  test_result : Option PyVal
  passed : Bool
  error_msg : Option String

/-- Embedding of the scoring tail of `validate`: starting from the
structural score, when differential mode ran and produced at least one
verdict the score is re-blended as `score * 0.7 + pass_rate * 0.3` and
the interchangeability flag is recomputed against the 85 threshold;
otherwise the structural-only threshold decides. -/
def validateScore (score0 : ℚ) (run_differential : Bool)
    (test_results : List DifferentialTestResult) : ℚ × Bool :=
  let score := score0
  let is_interchangeable := decide (score ≥ 85)
  if run_differential && !test_results.isEmpty then
    let total_diff_tests := test_results.length
    let passed_diff_tests := (test_results.filter fun r => r.passed).length
    if 0 < total_diff_tests then
      let diff_score := ((passed_diff_tests : ℚ) / (total_diff_tests : ℚ)) * 100
      let final_score := score * (0.7 : ℚ) + diff_score * (0.3 : ℚ)
      (final_score, decide (final_score ≥ 85))
    else (score, is_interchangeable)
  else (score, is_interchangeable)

/-- Fixed value pool of `DifferentialTester.create_test_inputs`
(`basic_values`): empty list, small integer list, small string list,
single-entry dict in a list. -/
def basic_values : List (List PyVal) :=
  [[],
   [.int 1, .int 2, .int 3],
   [.str "hello", .str "world"],
   [.dict [("key", .str "value")]]]

/-- Embedding of `DifferentialTester.create_test_inputs`, driven by the
positional parameter list of the original signature.  Zero arguments:
one empty case.  One to three arguments: one case per pool value among
the first `len(args) + 1` pool values, each truncated (`value_set[:len(args)]`,
with no padding) to at most the declared arity.  More than three
arguments: a single case of `None` placeholders.  Keyword arguments are
always empty. -/
def create_test_inputs (args : List String) : List (List PyVal × List (String × PyVal)) :=
  if args.length = 0 then [([], [])]
  else if args.length ≤ 3 then
    (basic_values.take (args.length + 1)).map fun value_set => (value_set.take args.length, [])
  else [(List.replicate args.length PyVal.none, [])]

/-- Behaviour of one sandboxed call: it returns a value, raises an error
of some kind with some message, or runs past the 5-second deadline (the
armed `SIGALRM` then raises `TimeoutError("Function execution timeout")`
inside the call). -/
inductive CallBehavior where
  | returns (v : PyVal) : CallBehavior
  | raises (kind msg : String) : CallBehavior
  | hangs : CallBehavior

/-- Outcome triple of `execute_function_safely`:
`(result, execution_time, error_msg)`. -/
structure ExecOutcome where
  result : Option PyVal
  execution_time : ℚ
  error_msg : Option String

/-- Process-wide alarm state manipulated through `signal.alarm`:
the number of seconds until `SIGALRM` fires, `0` meaning disarmed. -/
structure SignalState where
  alarm : Nat

/-- Embedding of `DifferentialTester.execute_function_safely` as a state
transformer over the process-wide alarm.  The call arms a 5-second alarm;
a normal return cancels it and reports the value; any raised error —
including the `TimeoutError` injected when the deadline fires — is caught
and rendered as `TypeName: message`; the `finally` block cancels the
alarm on every exit path.  `elapsed` stands for the measured
`time.time() - start_time`, which every branch computes. -/
def execute_function_safely (behavior : CallBehavior) (elapsed : ℚ)
    (s0 : SignalState) : ExecOutcome × SignalState :=
  let armed : SignalState := { s0 with alarm := 5 }
  match behavior with
  | .returns v =>
    let cancelled : SignalState := { armed with alarm := 0 }
    let afterFinally : SignalState := { cancelled with alarm := 0 }
    ({ result := some v, execution_time := elapsed, error_msg := Option.none }, afterFinally)
  | .raises kind msg =>
    let afterFinally : SignalState := { armed with alarm := 0 }
    ({ result := Option.none, execution_time := elapsed,
       error_msg := some (kind ++ ": " ++ msg) }, afterFinally)
  | .hangs =>
    let afterFinally : SignalState := { armed with alarm := 0 }
    ({ result := Option.none, execution_time := elapsed,
       error_msg := some ("TimeoutError" ++ ": " ++ "Function execution timeout") },
     afterFinally)

/-- Text before the first colon of a formatted error message
(Python `error.split(':')[0]`). -/
def errorKindOf (e : String) : String :=
  String.mk (e.toList.takeWhile fun c => c ≠ ':')

/-- Python `type(x)` applied to a `str`-typed expression always yields
the class `str`; rendered by name.  `error.split(':')[0]` is a `str`, so
`type(orig_error.split(':')[0])` in the source is this constant. -/
def pyTypeOfStr (_s : String) : String := "str"

/-- Embedding of the per-case verdict of
`DifferentialTester.test_function_differentially`: when either side
errored, the case passes iff both errored and
`type(orig_error.split(':')[0]) == type(test_error.split(':')[0])`;
when neither errored, the Result Comparator decides. -/
def differentialCasePassed (orig_error test_error : Option String)
    (results_equal : Bool) : Bool :=
  if orig_error.isSome || test_error.isSome then
    orig_error.isSome && test_error.isSome &&
      (pyTypeOfStr (errorKindOf (orig_error.getD "")) ==
       pyTypeOfStr (errorKindOf (test_error.getD "")))
  else results_equal

/-- Model of the Python `ast` nodes that `analyze_file_structure` walks.
Each node except the root carries a numeric identity standing for the
object identity that Python's `in` test compares on AST nodes; a tree is
faithful when its identities are pairwise distinct, as genuine `ast`
objects are.  An `assign` target of `Option.none` stands for a non-`Name`
target (attribute, subscript, tuple); `some s` is a `Name` target. -/
inductive PyNode where
  | module (body : List PyNode) : PyNode
  | funcDef (id : Nat) (name : String) (args : List String) (body : List PyNode) : PyNode
  | asyncFuncDef (id : Nat) (name : String) (args : List String) (body : List PyNode) : PyNode
  | classDef (id : Nat) (name : String) (bases : List String) (body : List PyNode) : PyNode
  | assign (id : Nat) (targets : List (Option String)) (valueText : String) : PyNode
  | passStmt (id : Nat) : PyNode

/-- Numeric identity of a node (the root module is `0`). -/
def nodeId : PyNode → Nat
  | .module _ => 0
  | .funcDef i _ _ _ => i
  | .asyncFuncDef i _ _ _ => i
  | .classDef i _ _ _ => i
  | .assign i _ _ => i
  | .passStmt i => i

/-- Children of a node, as `ast.iter_child_nodes` yields the statement
lists relevant here (expression children of an assignment carry no
`body` and match no analysed class, so they are omitted). -/
def childrenOf : PyNode → List PyNode
  | .module b => b
  | .funcDef _ _ _ b => b
  | .asyncFuncDef _ _ _ b => b
  | .classDef _ _ _ b => b
  | .assign _ _ _ => []
  | .passStmt _ => []

/-- Python `hasattr(node, 'body')`: true for `Module`, function, async
function and class definitions among the modelled nodes. -/
def hasBodyAttr : PyNode → Bool
  | .module _ => true
  | .funcDef _ _ _ _ => true
  | .asyncFuncDef _ _ _ _ => true
  | .classDef _ _ _ _ => true
  | .assign _ _ _ => false
  | .passStmt _ => false

/-- Python `isinstance(node, ast.Module)`. -/
def isModuleNode : PyNode → Bool
  | .module _ => true
  | _ => false

/-- Python `isinstance(node, ast.FunctionDef)`.  `ast.AsyncFunctionDef`
is not a subclass of `ast.FunctionDef`, so an async definition does not
satisfy this test. -/
def isFunctionDefNode : PyNode → Bool
  | .funcDef _ _ _ _ => true
  | _ => false

/-- Python `isinstance(node, ast.AsyncFunctionDef)`. -/
def isAsyncFunctionDefNode : PyNode → Bool
  | .asyncFuncDef _ _ _ _ => true
  | _ => false

/-- Declared name of a definition node (`node.name`); empty for nodes
that carry none. -/
def nodeNameOf : PyNode → String
  | .funcDef _ name _ _ => name
  | .asyncFuncDef _ name _ _ => name
  | .classDef _ name _ _ => name
  | _ => ""

/-- Breadth-first traversal of a work queue, as `ast.walk` performs with
its deque: pop a node, emit it, push its children at the back. -/
def walkQueue : List PyNode → List PyNode
  | [] => []
  | n :: rest => n :: walkQueue (rest ++ childrenOf n)
termination_by l => (l.map sizeOf).sum + l.length
decreasing_by
  have hsum : ∀ l : List PyNode, (l.map sizeOf).sum + l.length < sizeOf l := by
    intro l
    induction l with
    | nil => simp
    | cons h t ih =>
      simp only [List.map_cons, List.sum_cons, List.length_cons, List.cons.sizeOf_spec]
      omega
  have hx : ((childrenOf n).map sizeOf).sum + (childrenOf n).length < sizeOf n := by
    cases n with
    | module b =>
      have := hsum b
      simp only [childrenOf, PyNode.module.sizeOf_spec]; omega
    | funcDef i nm args b =>
      have := hsum b
      simp only [childrenOf, PyNode.funcDef.sizeOf_spec]; omega
    | asyncFuncDef i nm args b =>
      have := hsum b
      simp only [childrenOf, PyNode.asyncFuncDef.sizeOf_spec]; omega
    | classDef i nm bs b =>
      have := hsum b
      simp only [childrenOf, PyNode.classDef.sizeOf_spec]; omega
    | assign i t v =>
      simp only [childrenOf, PyNode.assign.sizeOf_spec, List.map_nil, List.sum_nil,
        List.length_nil]
      omega
    | passStmt i =>
      simp only [childrenOf, PyNode.passStmt.sizeOf_spec, List.map_nil, List.sum_nil,
        List.length_nil]
      omega
  simp only [List.map_append, List.sum_append, List.length_append, List.map_cons,
    List.sum_cons, List.length_cons]
  omega

/-- Python `ast.walk(tree)`: the tree root followed, breadth-first, by
every descendant. -/
def walkTree (tree : PyNode) : List PyNode := walkQueue [tree]

/-- Membership of a node in a statement list, by object identity
(Python `node in parent.body` on `ast` objects compares identity). -/
def nodeMem (node : PyNode) (body : List PyNode) : Bool :=
  body.any fun c => nodeId c == nodeId node

/-- Embedding of the module-level check of `analyze_file_structure`
(lines 155-161): the assignment counts as module-level unless some
walked node owns a `body`, does not contain the assignment in that body,
and is not the `Module` itself.  The source loop breaks at the first
such parent; the result is this universal test. -/
def isModuleLevel (tree node : PyNode) : Bool :=
  (walkTree tree).all fun parent =>
    !hasBodyAttr parent || nodeMem node (childrenOf parent) || isModuleNode parent

/-- Embedding of the variable collection of `analyze_file_structure`:
walk every node; for each assignment that passes `isModuleLevel`, record
each simple-`Name` target with the reconstructed value text. -/
def variablesOf (tree : PyNode) : List (String × String) :=
  List.foldr
    (fun node acc =>
      match node with
      | PyNode.assign _ targets valueText =>
        (if isModuleLevel tree node then
          targets.filterMap fun t => t.map fun nm => (nm, valueText)
        else []) ++ acc
      | _ => acc)
    [] (walkTree tree)

/-- Embedding of the function collection of `analyze_file_structure`:
walk every node and record a `(name, is_async)` entry for each node that
satisfies `isinstance(node, ast.FunctionDef)`, with
`is_async := isinstance(node, ast.AsyncFunctionDef)` exactly as the
source writes it. -/
def functionsOf (tree : PyNode) : List (String × Bool) :=
  (walkTree tree).filterMap fun node =>
    if isFunctionDefNode node then some (nodeNameOf node, isAsyncFunctionDefNode node)
    else Option.none

/-- Names bound by `DifferentialTester.create_safe_test_environment`:
the curated `__builtins__` table and the fixed allow-list of standard
library modules. -/
def create_safe_test_environment_keys : List String :=
  ["__builtins__", "math", "random", "datetime", "re", "json", "os", "sys",
   "time", "threading", "queue", "io", "signal", "warnings"]

/-- Allow-list modules injected into every sandbox namespace. -/
def allowListModules : List String :=
  ["math", "random", "datetime", "re", "json", "os", "sys",
   "time", "threading", "queue", "io", "signal", "warnings"]

/-- Python `s.startswith(p)`: the characters of `p` are a prefix of the
characters of `s`. -/
def pyStartsWith (s p : String) : Bool :=
  s.toList.take p.toList.length == p.toList

/-- Copy filter of `load_module_safely`:
`not name.startswith('__') or name in ['__name__', '__file__']`. -/
def copiesToModule (name : String) : Bool :=
  !pyStartsWith name "__" || (name == "__name__" || name == "__file__")

/-- Attribute names of the module object returned by
`load_module_safely`: the sandbox namespace after execution is the
curated environment, the injected `__name__` / `__file__` markers, and
every name the source bound (`sourceBound`); the copy loop keeps exactly
the names accepted by `copiesToModule`. -/
def load_module_safely_attrs (sourceBound : List String) : List String :=
  ((create_safe_test_environment_keys ++ ["__name__", "__file__"]) ++ sourceBound).filter
    copiesToModule

/-- Example differential verdict that passed. -/
def passedResult : DifferentialTestResult :=
  { test_name := "add_test_1", function_name := "add", original_result := some (.int 3),
    test_result := some (.int 3), passed := true, error_msg := Option.none }

/-- Example signature `def f(a, b)`. -/
def sigF : FunctionSig :=
  { name := "f", line := 1, args := ["a", "b"], defaults := 0, varargs := Option.none,
    kwonlyargs := [], kwargs := Option.none, returns := Option.none,
    docstring := Option.none, decorators := [], is_async := false }

/-- Example fingerprint holding one function. -/
def maOneFun : ModuleAnalysis := { functions := [("f", sigF)], classes := [], vars := [] }

/-- Example fingerprint holding nothing. -/
def maEmpty : ModuleAnalysis := { functions := [], classes := [], vars := [] }

/-- Example source tree `x = 1` followed by `def f(): pass` (the
assignment is at module level). -/
def treeTopAssign : PyNode :=
  .module [.assign 1 [some "x"] "1", .funcDef 2 "f" [] [.passStmt 3]]

/-- Example source tree `def f(): x = 1` (the assignment is nested in a
function body). -/
def treeNestedAssign : PyNode :=
  .module [.funcDef 1 "f" [] [.assign 2 [some "x"] "1"]]

/-- Example source tree holding a single `async def f(): pass`. -/
def treeAsyncDef : PyNode :=
  .module [.asyncFuncDef 1 "f" [] [.passStmt 2]]

/-- Example source tree holding a single `def g(): pass`. -/
def treeSyncDef : PyNode :=
  .module [.funcDef 1 "g" [] [.passStmt 2]]

/-- Example class with one method `m(self)` and no bases. -/
def classWithM : ClassSig :=
  { name := "C", line := 1, bases := [],
    methods := [("m", { name := "m", args := ["self"], is_async := false,
                        docstring := Option.none })],
    docstring := Option.none, decorators := [] }

/-- Example class of the same name with no methods and no bases. -/
def classNoM : ClassSig :=
  { name := "C", line := 1, bases := [], methods := [],
    docstring := Option.none, decorators := [] }

/-- Fingerprint holding only `classWithM`. -/
def maClassWithM : ModuleAnalysis := { functions := [], classes := [("C", classWithM)], vars := [] }

/-- Fingerprint holding only `classNoM`. -/
def maClassNoM : ModuleAnalysis := { functions := [], classes := [("C", classNoM)], vars := [] }

/-!
Auxiliary lemmas: association-list lookups, well-formedness, and the
symmetry infrastructure for the result comparator.
-/

theorem alookup_mem {d : List (String × PyVal)} {k : String} {v : PyVal}
    (h : alookup d k = some v) : (k, v) ∈ d := by
  induction d with
  | nil => simp [alookup] at h
  | cons p rest ih =>
    obtain ⟨k', v'⟩ := p
    by_cases hk : k' = k
    · subst hk
      simp [alookup] at h
      simp [h]
    · simp [alookup, hk] at h
      simp [ih h]

theorem mem_keysOf_iff {d : List (String × PyVal)} {k : String} :
    k ∈ keysOf d ↔ ∃ v, alookup d k = some v := by
  induction d with
  | nil => simp [keysOf, alookup]
  | cons p rest ih =>
    obtain ⟨k', v'⟩ := p
    by_cases hk : k' = k
    · subst hk
      simp [keysOf, alookup]
    · simp only [keysOf, List.map_cons, List.mem_cons, alookup, if_neg hk]
      constructor
      · rintro (h | hm)
        · exact absurd h.symm hk
        · exact ih.mp hm
      · intro h
        exact Or.inr (ih.mpr h)

theorem alookup_eq_of_mem_nodup {d : List (String × PyVal)} {k : String} {v : PyVal}
    (hn : (keysOf d).Nodup) (h : (k, v) ∈ d) : alookup d k = some v := by
  induction d with
  | nil => simp at h
  | cons p rest ih =>
    obtain ⟨k', v'⟩ := p
    simp only [keysOf, List.map_cons, List.nodup_cons] at hn
    rcases List.mem_cons.mp h with h1 | h1
    · obtain ⟨rfl, rfl⟩ := Prod.mk.injEq .. ▸ h1
      simp [alookup]
    · have hk : k' ≠ k := by
        rintro rfl
        exact hn.1 (List.mem_map.mpr ⟨(k', v), h1, rfl⟩)
      simp [alookup, hk]
      exact ih hn.2 h1

theorem keysNodup_iff {l : List String} : keysNodup l = true ↔ l.Nodup := by
  induction l with
  | nil => simp [keysNodup]
  | cons k rest ih => simp [keysNodup, ih, List.elem_iff]

theorem wfList_mem {xs : List PyVal} (h : wfList xs = true) {x : PyVal} (hx : x ∈ xs) :
    wfVal x = true := by
  induction xs with
  | nil => simp at hx
  | cons y ys ih =>
    simp only [wfList, Bool.and_eq_true] at h
    rcases List.mem_cons.mp hx with rfl | hx'
    · exact h.1
    · exact ih h.2 hx'

theorem wfEntries_mem {d : List (String × PyVal)} (h : wfEntries d = true)
    {p : String × PyVal} (hp : p ∈ d) : wfVal p.2 = true := by
  induction d with
  | nil => simp at hp
  | cons q rest ih =>
    obtain ⟨k, v⟩ := q
    simp only [wfEntries, Bool.and_eq_true] at h
    rcases List.mem_cons.mp hp with rfl | hp'
    · exact h.1
    · exact ih h.2 hp'

theorem sizeOf_elem_lt {xs : List PyVal} {x : PyVal} (h : x ∈ xs) :
    sizeOf x < sizeOf (PyVal.list xs) := by
  have := List.sizeOf_lt_of_mem h
  simp only [PyVal.list.sizeOf_spec]
  omega

theorem sizeOf_entryval_lt {d : List (String × PyVal)} {k : String} {v : PyVal}
    (h : (k, v) ∈ d) : sizeOf v < sizeOf (PyVal.dict d) := by
  have h1 := List.sizeOf_lt_of_mem h
  have h2 : sizeOf (k, v) = 1 + sizeOf k + sizeOf v := rfl
  simp only [PyVal.dict.sizeOf_spec]
  omega

theorem pyEqEntries_iff {d1 d2 : List (String × PyVal)} :
    pyEqEntries d1 d2 = true ↔
      ∀ p ∈ d1, ∃ w, alookup d2 p.1 = some w ∧ pyEq p.2 w = true := by
  induction d1 with
  | nil => simp [pyEqEntries]
  | cons q rest ih =>
    obtain ⟨k, v⟩ := q
    simp only [pyEqEntries, Bool.and_eq_true, ih, List.mem_cons]
    constructor
    · rintro ⟨h1, h2⟩ p (rfl | hp)
      · rcases hl : alookup d2 k with _ | w
        · rw [hl] at h1; exact absurd h1 (by simp)
        · rw [hl] at h1; exact ⟨w, rfl, h1⟩
      · exact h2 p hp
    · rintro h
      constructor
      · obtain ⟨w, hw, hpq⟩ := h (k, v) (Or.inl rfl)
        rw [hw]; exact hpq
      · exact fun p hp => h p (Or.inr hp)


theorem pyEqList_iff {xs ys : List PyVal} :
    pyEqList xs ys = true ↔ List.Forall₂ (fun a b => pyEq a b = true) xs ys := by
  induction xs generalizing ys with
  | nil => cases ys <;> simp [pyEqList]
  | cons x xs ih =>
    cases ys with
    | nil => simp [pyEqList]
    | cons y ys => simp [pyEqList, ih, List.forall₂_cons]

theorem pyEq_refl_of_wf :
    ∀ (n : Nat) (x : PyVal), sizeOf x ≤ n → wfVal x = true → pyEq x x = true := by
  intro n
  induction n with
  | zero =>
    intro x hx _
    exfalso
    cases x <;> simp_all
  | succ n ih =>
    intro x hx hwf
    cases x with
    | none => rfl
    | bool a => simp [pyEq]
    | int a => simp [pyEq]
    | str s => simp [pyEq]
    | list xs =>
      simp only [pyEq, pyEqList_iff]
      have hxs : wfList xs = true := by simpa [wfVal] using hwf
      refine List.forall₂_same.mpr fun y hy => ?_
      have hsz : sizeOf y < sizeOf (PyVal.list xs) := sizeOf_elem_lt hy
      exact ih y (by omega) (wfList_mem hxs hy)
    | dict d =>
      simp only [pyEq, Bool.and_eq_true, beq_self_eq_true, true_and]
      rw [pyEqEntries_iff]
      have hw : keysNodup (keysOf d) = true ∧ wfEntries d = true := by
        simpa [wfVal] using hwf
      intro p hp
      obtain ⟨k, v⟩ := p
      refine ⟨v, alookup_eq_of_mem_nodup (keysNodup_iff.mp hw.1) hp, ?_⟩
      have hsz : sizeOf v < sizeOf (PyVal.dict d) := sizeOf_entryval_lt hp
      exact ih v (by omega) (wfEntries_mem hw.2 hp)

theorem pyEq_refl {x : PyVal} (h : wfVal x = true) : pyEq x x = true :=
  pyEq_refl_of_wf (sizeOf x) x le_rfl h


theorem pyEqEntries_flip {e1 e2 : List (String × PyVal)} (hlen : e1.length = e2.length)
    (hn1 : (keysOf e1).Nodup) (hn2 : (keysOf e2).Nodup)
    (hsym : ∀ p ∈ e1, ∀ q ∈ e2, pyEq p.2 q.2 = pyEq q.2 p.2)
    (h : pyEqEntries e1 e2 = true) : pyEqEntries e2 e1 = true := by
  rw [pyEqEntries_iff] at h ⊢
  have hsub : ∀ k ∈ keysOf e1, k ∈ keysOf e2 := by
    intro k hk
    obtain ⟨v, hv⟩ := mem_keysOf_iff.mp hk
    obtain ⟨w, hw, _⟩ := h (k, v) (alookup_mem hv)
    exact mem_keysOf_iff.mpr ⟨w, hw⟩
  have hset : (keysOf e1).toFinset = (keysOf e2).toFinset := by
    apply Finset.eq_of_subset_of_card_le
    · intro k hk
      exact List.mem_toFinset.mpr (hsub k (List.mem_toFinset.mp hk))
    · rw [List.toFinset_card_of_nodup hn1, List.toFinset_card_of_nodup hn2]
      simp [keysOf, hlen]
  rintro ⟨k, w⟩ hp
  have hk2 : k ∈ keysOf e2 := List.mem_map.mpr ⟨(k, w), hp, rfl⟩
  have hk1 : k ∈ keysOf e1 := List.mem_toFinset.mp (hset ▸ List.mem_toFinset.mpr hk2)
  obtain ⟨v, hv⟩ := mem_keysOf_iff.mp hk1
  obtain ⟨w', hw', hpq⟩ := h (k, v) (alookup_mem hv)
  have hww : w' = w := by
    rw [alookup_eq_of_mem_nodup hn2 hp] at hw'
    injection hw' with h3
    exact h3.symm
  rw [hww] at hpq
  refine ⟨v, hv, ?_⟩
  rw [← hsym (k, v) (alookup_mem hv) (k, w) hp]
  exact hpq

theorem pyEq_symm_of_wf :
    ∀ (n : Nat) (x y : PyVal), sizeOf x + sizeOf y ≤ n →
      wfVal x = true → wfVal y = true → pyEq x y = pyEq y x := by
  intro n
  induction n with
  | zero =>
    intro x y hx _ _
    exfalso
    cases x <;> simp_all
  | succ n ih =>
    intro x y hxy hwx hwy
    cases x with
    | none => cases y <;> rfl
    | bool a =>
      cases y <;> try rfl
      case bool b => exact Bool.beq_comm ..
      case int b => simp only [pyEq]; exact Bool.beq_comm ..
    | int a =>
      cases y <;> try rfl
      case int b => exact Bool.beq_comm ..
      case bool b => simp only [pyEq]; exact Bool.beq_comm ..
    | str s =>
      cases y <;> try rfl
      case str t => exact Bool.beq_comm ..
    | list xs =>
      cases y <;> try rfl
      case list ys =>
        simp only [pyEq]
        have hwxs : wfList xs = true := by simpa [wfVal] using hwx
        have hwys : wfList ys = true := by simpa [wfVal] using hwy
        have key : ∀ (as bs : List PyVal),
            (∀ a ∈ as, ∀ b ∈ bs, pyEq a b = pyEq b a) →
            pyEqList as bs = pyEqList bs as := by
          intro as
          induction as with
          | nil => intro bs _; cases bs <;> rfl
          | cons a as iha =>
            intro bs hsym
            cases bs with
            | nil => rfl
            | cons b bs =>
              simp only [pyEqList]
              rw [hsym a (by simp) b (by simp),
                iha bs fun a' ha' b' hb' => hsym a' (by simp [ha']) b' (by simp [hb'])]
        apply key
        intro a ha b hb
        have h1 := sizeOf_elem_lt ha
        have h2 := sizeOf_elem_lt hb
        exact ih a b (by omega) (wfList_mem hwxs ha) (wfList_mem hwys hb)
    | dict d1 =>
      cases y <;> try rfl
      case dict d2 =>
        simp only [pyEq]
        have hw1 : keysNodup (keysOf d1) = true ∧ wfEntries d1 = true := by
          simpa [wfVal] using hwx
        have hw2 : keysNodup (keysOf d2) = true ∧ wfEntries d2 = true := by
          simpa [wfVal] using hwy
        have hn1 : (keysOf d1).Nodup := keysNodup_iff.mp hw1.1
        have hn2 : (keysOf d2).Nodup := keysNodup_iff.mp hw2.1
        have hsym : ∀ p ∈ d1, ∀ q ∈ d2, pyEq p.2 q.2 = pyEq q.2 p.2 := by
          intro p hp q hq
          have s1 := sizeOf_entryval_lt hp
          have s2 := sizeOf_entryval_lt hq
          exact ih p.2 q.2 (by omega) (wfEntries_mem hw1.2 hp) (wfEntries_mem hw2.2 hq)
        cases hlen : d1.length == d2.length with
        | false =>
          have hlen2 : (d2.length == d1.length) = false := by
            rw [Bool.beq_comm]; exact hlen
          simp [hlen, hlen2]
        | true =>
          have hl : d1.length = d2.length := eq_of_beq hlen
          have hlen2 : (d2.length == d1.length) = true := by
            rw [Bool.beq_comm]; exact hlen
          simp only [hlen, hlen2, Bool.true_and]
          rw [Bool.eq_iff_iff]
          constructor
          · exact pyEqEntries_flip hl hn1 hn2 hsym
          · exact pyEqEntries_flip hl.symm hn2 hn1
              fun q hq p hp => (hsym p hp q hq).symm

theorem pyEq_symm {x y : PyVal} (hx : wfVal x = true) (hy : wfVal y = true) :
    pyEq x y = pyEq y x :=
  pyEq_symm_of_wf (sizeOf x + sizeOf y) x y le_rfl hx hy

theorem compareResults_refl_of_wf {x : PyVal} (h : wfVal x = true) :
    compareResults x x = true := by
  have h1 := pyEq_refl h
  cases x <;> simp [compareResults, h1]

theorem compareEntries_iff {d1 d2 : List (String × PyVal)} :
    compareEntries d1 d2 = true ↔
      ∀ p ∈ d1, ∃ w, alookup d2 p.1 = some w ∧ compareResults p.2 w = true := by
  induction d1 with
  | nil => simp [compareEntries]
  | cons q rest ih =>
    obtain ⟨k, v⟩ := q
    simp only [compareEntries, Bool.and_eq_true, ih, List.mem_cons]
    constructor
    · rintro ⟨h1, h2⟩ p (rfl | hp)
      · rcases hl : alookup d2 k with _ | w
        · rw [hl] at h1; exact absurd h1 (by simp)
        · rw [hl] at h1; exact ⟨w, rfl, h1⟩
      · exact h2 p hp
    · rintro h
      constructor
      · obtain ⟨w, hw, hpq⟩ := h (k, v) (Or.inl rfl)
        rw [hw]; exact hpq
      · exact fun p hp => h p (Or.inr hp)

theorem keySetEq_iff {a b : List String} :
    keySetEq a b = true ↔ (∀ k ∈ a, k ∈ b) ∧ (∀ k ∈ b, k ∈ a) := by
  simp [keySetEq, memberAll, List.all_eq_true, List.elem_iff]

theorem compareEntries_flip {e1 e2 : List (String × PyVal)}
    (hsub21 : ∀ k ∈ keysOf e2, k ∈ keysOf e1)
    (hn2 : (keysOf e2).Nodup)
    (hsym : ∀ p ∈ e1, ∀ q ∈ e2, compareResults p.2 q.2 = compareResults q.2 p.2)
    (h : compareEntries e1 e2 = true) : compareEntries e2 e1 = true := by
  rw [compareEntries_iff] at h ⊢
  rintro ⟨k, w⟩ hp
  have hk1 : k ∈ keysOf e1 := hsub21 k (List.mem_map.mpr ⟨(k, w), hp, rfl⟩)
  obtain ⟨v, hv⟩ := mem_keysOf_iff.mp hk1
  obtain ⟨w', hw', hpq⟩ := h (k, v) (alookup_mem hv)
  have hww : w' = w := by
    rw [alookup_eq_of_mem_nodup hn2 hp] at hw'
    injection hw' with h3
    exact h3.symm
  rw [hww] at hpq
  refine ⟨v, hv, ?_⟩
  rw [← hsym (k, v) (alookup_mem hv) (k, w) hp]
  exact hpq

theorem compareResults_symm_of_wf :
    ∀ (n : Nat) (x y : PyVal), sizeOf x + sizeOf y ≤ n →
      wfVal x = true → wfVal y = true → compareResults x y = compareResults y x := by
  intro n
  induction n with
  | zero =>
    intro x y hx _ _
    exfalso
    cases x <;> simp_all
  | succ n ih =>
    intro x y hxy hwx hwy
    have hpy : pyEq x y = pyEq y x := pyEq_symm hwx hwy
    cases x with
    | none => cases y <;> rfl
    | bool a =>
      cases y <;> try rfl
      case bool b =>
        cases h1 : pyEq (PyVal.bool a) (PyVal.bool b) <;>
          (have h2 := h1 ▸ hpy; simp [compareResults, h1, h2.symm])
      case int b =>
        cases h1 : pyEq (PyVal.bool a) (PyVal.int b) <;>
          (have h2 := h1 ▸ hpy; simp [compareResults, h1, h2.symm, typeName])
    | int a =>
      cases y <;> try rfl
      case int b =>
        cases h1 : pyEq (PyVal.int a) (PyVal.int b) <;>
          (have h2 := h1 ▸ hpy; simp [compareResults, h1, h2.symm])
      case bool b =>
        cases h1 : pyEq (PyVal.int a) (PyVal.bool b) <;>
          (have h2 := h1 ▸ hpy; simp [compareResults, h1, h2.symm, typeName])
    | str s =>
      cases y <;> try rfl
      case str t =>
        cases h1 : pyEq (PyVal.str s) (PyVal.str t) <;>
          have h2 := h1 ▸ hpy
        · simp only [compareResults, h1, h2.symm, Bool.false_eq_true, if_false,
            bne_self_eq_false, typeName]
          exact Bool.beq_comm ..
        · simp [compareResults, h1, h2.symm]
    | list xs =>
      cases y <;> try rfl
      case list ys =>
        have hwxs : wfList xs = true := by simpa [wfVal] using hwx
        have hwys : wfList ys = true := by simpa [wfVal] using hwy
        have hcl : compareList xs ys = compareList ys xs := by
          have key : ∀ (as bs : List PyVal),
              (∀ a ∈ as, ∀ b ∈ bs, compareResults a b = compareResults b a) →
              compareList as bs = compareList bs as := by
            intro as
            induction as with
            | nil => intro bs _; cases bs <;> rfl
            | cons a as iha =>
              intro bs hsym
              cases bs with
              | nil => rfl
              | cons b bs =>
                simp only [compareList]
                rw [hsym a (by simp) b (by simp),
                  iha bs fun a' ha' b' hb' => hsym a' (by simp [ha']) b' (by simp [hb'])]
          apply key
          intro a ha b hb
          have s1 := sizeOf_elem_lt ha
          have s2 := sizeOf_elem_lt hb
          exact ih a b (by omega) (wfList_mem hwxs ha) (wfList_mem hwys hb)
        cases h1 : pyEq (PyVal.list xs) (PyVal.list ys) <;>
          have h2 := h1 ▸ hpy
        · simp only [compareResults, h1, h2.symm, Bool.false_eq_true, if_false,
            bne_self_eq_false, typeName]
          rw [hcl, Bool.beq_comm]
        · simp [compareResults, h1, h2.symm]
    | dict d1 =>
      cases y <;> try rfl
      case dict d2 =>
        have hw1 : keysNodup (keysOf d1) = true ∧ wfEntries d1 = true := by
          simpa [wfVal] using hwx
        have hw2 : keysNodup (keysOf d2) = true ∧ wfEntries d2 = true := by
          simpa [wfVal] using hwy
        have hn1 : (keysOf d1).Nodup := keysNodup_iff.mp hw1.1
        have hn2 : (keysOf d2).Nodup := keysNodup_iff.mp hw2.1
        have hsym : ∀ p ∈ d1, ∀ q ∈ d2, compareResults p.2 q.2 = compareResults q.2 p.2 := by
          intro p hp q hq
          have s1 := sizeOf_entryval_lt hp
          have s2 := sizeOf_entryval_lt hq
          exact ih p.2 q.2 (by omega) (wfEntries_mem hw1.2 hp) (wfEntries_mem hw2.2 hq)
        cases h1 : pyEq (PyVal.dict d1) (PyVal.dict d2) <;>
          have h2 := h1 ▸ hpy
        · simp only [compareResults, h1, h2.symm, Bool.false_eq_true, if_false,
            bne_self_eq_false, typeName]
          cases hk : keySetEq (keysOf d1) (keysOf d2)
          · have hk2 : keySetEq (keysOf d2) (keysOf d1) = false := by
              rw [keySetEq, Bool.and_comm]
              exact hk
            rw [hk2]
            rfl
          · have hk2 : keySetEq (keysOf d2) (keysOf d1) = true := by
              rw [keySetEq, Bool.and_comm]
              exact hk
            rw [hk2]
            simp only [Bool.true_and]
            obtain ⟨hs12, hs21⟩ := keySetEq_iff.mp hk
            rw [Bool.eq_iff_iff]
            constructor
            · exact compareEntries_flip hs21 hn2 hsym
            · exact compareEntries_flip hs12 hn1
                fun q hq p hp => (hsym p hp q hq).symm
        · simp [compareResults, h1, h2.symm]

theorem methodDiff_isEmpty (orig test : ClassSig) :
    (methodDiffEntries orig test).isEmpty =
      (orig.methods.all fun p =>
        match lookupIn test.methods p.1 with
        | some m => decide (p.2.args = m.args)
        | Option.none => true) := by
  unfold methodDiffEntries
  induction orig.methods with
  | nil => rfl
  | cons p rest ih =>
    rcases hl : lookupIn test.methods p.1 with _ | m
    · simpa [List.filter_cons, hl] using ih
    · by_cases ha : p.2.args = m.args
      · simpa [List.filter_cons, hl, ha] using ih
      · simp [List.filter_cons, hl, ha]

/-- C6 (amended): a class present in both fingerprints is reported
compatible iff its base-name lists are identical (order-sensitive), its
method name set is identical on both sides (missing or extra methods
each force incompatibility, contrary to the original claim), and every
common method has an identical positional-parameter list. -/
theorem classDiff_isEmpty_characterization (orig test : ClassSig) :
    (classDiff orig test).isEmpty =
      (decide (orig.bases = test.bases) && (missingMethods orig test).isEmpty &&
       (extraMethods orig test).isEmpty &&
       (orig.methods.all fun p =>
         match lookupIn test.methods p.1 with
         | some m => decide (p.2.args = m.args)
         | Option.none => true)) := by
  have happ : ∀ (l1 l2 : List String), (l1 ++ l2).isEmpty = (l1.isEmpty && l2.isEmpty) := by
    intro l1 l2
    cases l1 <;> cases l2 <;> simp
  have h4 := methodDiff_isEmpty orig test
  by_cases hb : orig.bases = test.bases <;>
    cases hmm : (missingMethods orig test).isEmpty <;>
      cases hee : (extraMethods orig test).isEmpty <;>
        cases hall : (orig.methods.all fun p =>
          match lookupIn test.methods p.1 with
          | some m => decide (p.2.args = m.args)
          | Option.none => true) <;>
          simp_all [classDiff, happ, List.isEmpty_iff]


/-- C6 (counterexample): with identical (empty) base lists and no common
method mismatch, a method missing from the candidate alone already makes
the class incompatible in `analyze_classes_compatibility`, so the claim
that missing/extra methods never force incompatibility is false. -/
theorem class_missing_method_counterexample :
    (analyze_classes_compatibility maClassWithM maClassNoM).compatible_classes = [] ∧
    (analyze_classes_compatibility maClassWithM maClassNoM).incompatible_classes = ["C"] ∧
    classWithM.bases = classNoM.bases ∧
    methodDiffEntries classWithM classNoM = [] := by
  refine ⟨?_, ?_, rfl, rfl⟩ <;> rfl

/-- C7 (counterexample): for declared arity 1 the first synthesized case
has zero positional arguments (the empty pool value is truncated, never
padded), so the claim that every 1-3-arity case has exactly the declared
arity is false. -/
theorem create_test_inputs_not_padded :
    ((create_test_inputs ["a"]).all fun c => c.1.length == ["a"].length) = false ∧
    (create_test_inputs ["a"]).map (fun c => c.1.length) = [0, 1] := ⟨rfl, rfl⟩

/-- C7 (amended): zero-arity functions get exactly one no-argument case;
arity 1-3 gets exactly `arity + 1` cases (at most four), each with at
most — not exactly — the declared arity of positional arguments (pool
values are truncated, never padded) and no keyword arguments; arity
above three gets exactly one case of all-`None` placeholders. -/
theorem create_test_inputs_characterization (args : List String) :
    (args.length = 0 → create_test_inputs args = [([], [])]) ∧
    (1 ≤ args.length → args.length ≤ 3 →
      (create_test_inputs args).length = args.length + 1 ∧
      ∀ c ∈ create_test_inputs args, c.1.length ≤ args.length ∧ c.2 = []) ∧
    (3 < args.length →
      create_test_inputs args = [(List.replicate args.length PyVal.none, [])]) := by
  refine ⟨fun h0 => ?_, fun h1 h3 => ⟨?_, ?_⟩, fun hgt => ?_⟩
  · simp [create_test_inputs, h0]
  · have h0 : args.length ≠ 0 := by omega
    simp only [create_test_inputs, if_neg h0, if_pos h3, List.length_map, List.length_take]
    have : basic_values.length = 4 := rfl
    omega
  · intro c hc
    have h0 : args.length ≠ 0 := by omega
    simp only [create_test_inputs, if_neg h0, if_pos h3, List.mem_map] at hc
    obtain ⟨vs, _, rfl⟩ := hc
    simp [List.length_take]
  · have h0 : args.length ≠ 0 := by omega
    have h3 : ¬ args.length ≤ 3 := by omega
    simp [create_test_inputs, h0, h3]

/-- C3 (code bug): a differential case in which both sides errored with
different error kinds (`TypeError` vs `ValueError`) is nevertheless
marked passed, because the source compares
`type(orig_error.split(':')[0]) == type(test_error.split(':')[0])` —
the Python type of two `str` prefixes, which is always `str == str` —
instead of the prefixes themselves, contradicting its own comment
`Both should have the same error type`. -/
theorem differential_error_verdict_ignores_kind :
    differentialCasePassed (some "TypeError: unsupported operand")
      (some "ValueError: invalid literal") false = true ∧
    errorKindOf "TypeError: unsupported operand" = "TypeError" ∧
    errorKindOf "ValueError: invalid literal" = "ValueError" ∧
    "TypeError" ≠ "ValueError" := by
  refine ⟨rfl, by decide, by decide, by decide⟩

/-- C9: for every call behaviour and prior alarm state,
`execute_function_safely` reports a normal value with no error, renders
any raised error as `Kind: message`, renders a deadline expiry as the
distinct `TimeoutError` kind, returns the measured elapsed time in every
outcome, and leaves the process-wide alarm disarmed (`alarm = 0`) on
every exit path. -/
theorem execute_function_safely_spec (elapsed : ℚ) (s0 : SignalState)
    (v : PyVal) (kind msg : String) :
    execute_function_safely (CallBehavior.returns v) elapsed s0 =
      ({ result := some v, execution_time := elapsed, error_msg := Option.none },
       { alarm := 0 }) ∧
    execute_function_safely (CallBehavior.raises kind msg) elapsed s0 =
      ({ result := Option.none, execution_time := elapsed,
         error_msg := some (kind ++ ": " ++ msg) }, { alarm := 0 }) ∧
    execute_function_safely CallBehavior.hangs elapsed s0 =
      ({ result := Option.none, execution_time := elapsed,
         error_msg := some "TimeoutError: Function execution timeout" }, { alarm := 0 }) ∧
    errorKindOf "TimeoutError: Function execution timeout" = "TimeoutError" :=
  ⟨rfl, rfl, rfl, by decide⟩


/-- C4 (code bug): the scope check of `analyze_file_structure` is wrong
in both directions — a genuine module-level assignment `x = 1` is
dropped as soon as the file also contains a function (whose body does
not contain the assignment), while an assignment nested inside a
function body is recorded as module-level when that function is the only
enclosing block. -/
theorem module_level_assignment_misclassified :
    variablesOf treeTopAssign = [] ∧
    variablesOf treeNestedAssign = [("x", "1")] := by
  constructor <;>
    simp [treeTopAssign, treeNestedAssign, variablesOf, walkTree, walkQueue, childrenOf,
      isModuleLevel, nodeMem, hasBodyAttr, isModuleNode, nodeId]

/-- C5 (code bug): `async def` declarations are never recorded in the
functions table, because `isinstance(node, ast.FunctionDef)` is false
for `ast.AsyncFunctionDef`; consequently the recorded `is_async` flag —
computed inside that branch — is false for every recorded function,
contrary to the claim that async declarations are walked and flagged. -/
theorem async_function_not_recorded :
    functionsOf treeAsyncDef = [] ∧
    functionsOf treeSyncDef = [("g", false)] := by
  constructor <;>
    simp [treeAsyncDef, treeSyncDef, functionsOf, walkTree, walkQueue, childrenOf,
      isFunctionDefNode, isAsyncFunctionDefNode, nodeNameOf]

/-- C10: the module object returned by `load_module_safely` exposes
every injected allow-list module and the `__name__` / `__file__`
markers regardless of what the source bound, exposes every
non-double-underscore name the source bound (including
single-underscore-prefixed ones), never exposes `__builtins__`, and
exposes nothing else that is double-underscore-prefixed. -/
theorem load_module_attrs_spec (sourceBound : List String) :
    ((allowListModules ++ ["__name__", "__file__"]).all fun m =>
      (load_module_safely_attrs sourceBound).contains m) = true ∧
    "__builtins__" ∉ load_module_safely_attrs sourceBound ∧
    (∀ nm ∈ sourceBound, pyStartsWith nm "__" = false →
      nm ∈ load_module_safely_attrs sourceBound) ∧
    (∀ nm ∈ load_module_safely_attrs sourceBound,
      pyStartsWith nm "__" = false ∨ nm = "__name__" ∨ nm = "__file__") := by
  have hmem : ∀ m, m ∈ create_safe_test_environment_keys ++ ["__name__", "__file__"] →
      copiesToModule m = true → m ∈ load_module_safely_attrs sourceBound := by
    intro m h1 h2
    unfold load_module_safely_attrs
    exact List.mem_filter.mpr ⟨List.mem_append_left _ h1, h2⟩
  refine ⟨?_, ?_, ?_, ?_⟩
  · rw [List.all_eq_true]
    intro m hm
    fin_cases hm <;> exact List.elem_iff.mpr (hmem _ (by decide) (by decide))
  · intro h
    have h2 := (List.mem_filter.mp h).2
    exact absurd h2 (by decide)
  · intro nm h1 h2
    unfold load_module_safely_attrs
    refine List.mem_filter.mpr ⟨List.mem_append_right _ h1, ?_⟩
    simp [copiesToModule, h2]
  · intro nm h
    have h2 := (List.mem_filter.mp h).2
    simp only [copiesToModule, Bool.or_eq_true, Bool.not_eq_true', beq_iff_eq] at h2
    rcases h2 with h2 | h2 | h2
    · exact Or.inl h2
    · exact Or.inr (Or.inl h2)
    · exact Or.inr (Or.inr h2)

theorem compatibleElements_le (orig test : ModuleAnalysis) :
    compatibleElements orig test ≤ totalElements orig := by
  have h1 : (analyze_signatures_compatibility orig test).compatible_functions.length ≤
      orig.functions.length := by
    simp only [analyze_signatures_compatibility, List.length_map]
    exact List.length_filter_le _ _
  have h2 : (analyze_classes_compatibility orig test).compatible_classes.length ≤
      orig.classes.length := by
    simp only [analyze_classes_compatibility, List.length_map]
    exact List.length_filter_le _ _
  have h3 : (analyze_variables_compatibility orig test).compatible_variables.length ≤
      orig.vars.length := by
    simp only [analyze_variables_compatibility, List.length_map]
    exact List.length_filter_le _ _
  unfold compatibleElements totalElements
  omega

/-- C2: `calculate_compatibility_score` returns exactly 100 when the
original fingerprint holds no functions, classes or variables
(regardless of the candidate); otherwise it returns
`(compatible functions + compatible classes + compatible variables) /
(|functions| + |classes| + |variables|) * 100`; and the result always
lies in `[0, 100]`. -/
theorem calculate_compatibility_score_spec (orig test : ModuleAnalysis) :
    (totalElements orig = 0 → calculate_compatibility_score orig test = 100) ∧
    (totalElements orig ≠ 0 → calculate_compatibility_score orig test =
      ((compatibleElements orig test : ℚ) / (totalElements orig : ℚ)) * 100) ∧
    0 ≤ calculate_compatibility_score orig test ∧
    calculate_compatibility_score orig test ≤ 100 := by
  have hle := compatibleElements_le orig test
  by_cases h : totalElements orig = 0
  · refine ⟨fun _ => ?_, fun hc => absurd h hc, ?_, ?_⟩ <;>
      simp [calculate_compatibility_score, h]
  · have ht : (0 : ℚ) < (totalElements orig : ℚ) := by
      exact_mod_cast Nat.pos_of_ne_zero h
    have hc : (compatibleElements orig test : ℚ) ≤ (totalElements orig : ℚ) := by
      exact_mod_cast hle
    have hval : calculate_compatibility_score orig test =
        ((compatibleElements orig test : ℚ) / (totalElements orig : ℚ)) * 100 := by
      simp [calculate_compatibility_score, h]
    refine ⟨fun hc2 => absurd hc2 h, fun _ => hval, ?_, ?_⟩
    · rw [hval]
      positivity
    · rw [hval]
      have hdiv : (compatibleElements orig test : ℚ) / (totalElements orig : ℚ) ≤ 1 :=
        (div_le_one ht).mpr hc
      nlinarith

/-- Witness for C2 at concrete fingerprints: the empty original scores
100, and self-comparison of a one-function fingerprint takes the
quotient form and evaluates to 100. -/
theorem calculate_compatibility_score_spec_witness :
    calculate_compatibility_score maEmpty maOneFun = 100 ∧
    calculate_compatibility_score maOneFun maOneFun =
      ((compatibleElements maOneFun maOneFun : ℚ) / (totalElements maOneFun : ℚ)) * 100 ∧
    calculate_compatibility_score maOneFun maOneFun = 100 :=
  ⟨(calculate_compatibility_score_spec maEmpty maOneFun).1 rfl,
   (calculate_compatibility_score_spec maOneFun maOneFun).2.1 (by decide),
   by norm_num [calculate_compatibility_score, compatibleElements, totalElements,
     analyze_signatures_compatibility, analyze_classes_compatibility,
     analyze_variables_compatibility, maOneFun, signatureDiff, lookupIn, namesOf]⟩

/-- C1: in differential mode, when at least one differential verdict was
produced the final score is `0.7 * structuralScore + 0.3 *
(passed / total * 100)` and interchangeability holds iff that blended
score is at least 85; with zero verdicts no blend is applied and the
structural-only rule `structuralScore >= 85` decides. -/
theorem validateScore_spec (s : ℚ) (rs : List DifferentialTestResult) :
    (rs ≠ [] → validateScore s true rs =
      ((0.7 : ℚ) * s +
        (0.3 : ℚ) * (((rs.filter fun r => r.passed).length : ℚ) / (rs.length : ℚ) * 100),
       decide ((0.7 : ℚ) * s +
        (0.3 : ℚ) * (((rs.filter fun r => r.passed).length : ℚ) / (rs.length : ℚ) * 100) ≥ 85))) ∧
    validateScore s true [] = (s, decide (s ≥ 85)) := by
  constructor
  · intro h
    have hne : rs.isEmpty = false := by
      cases rs
      · exact absurd rfl h
      · rfl
    have hpos : 0 < rs.length := List.length_pos.mpr h
    have harith : s * (0.7 : ℚ) +
        (((rs.filter fun r => r.passed).length : ℚ) / (rs.length : ℚ) * 100) * (0.3 : ℚ) =
        (0.7 : ℚ) * s +
        (0.3 : ℚ) * (((rs.filter fun r => r.passed).length : ℚ) / (rs.length : ℚ) * 100) := by
      ring
    simp only [validateScore, hne, Bool.not_false, Bool.and_self, if_true, hpos, if_pos,
      harith]
  · rfl

/-- Witness for C1: structural score 90 with one passed verdict blends
to `0.7 * 90 + 0.3 * 100 = 93`, which clears the 85 threshold. -/
theorem validateScore_spec_witness :
    validateScore 90 true [passedResult] = (93, true) := by
  have h := (validateScore_spec 90 [passedResult]).1 (by simp)
  rw [h]
  norm_num [passedResult]

/-- C8: `compare_results` is reflexive and symmetric on every
well-formed value (every value representable as a Python object, i.e.
with duplicate-free dict keys); the embedding is a total function, the
source's `except` clause merely turning comparison exceptions into
`False`. -/
theorem compare_results_refl_and_symm :
    (∀ x : PyVal, wfVal x = true → compareResults x x = true) ∧
    (∀ x y : PyVal, wfVal x = true → wfVal y = true →
      compareResults x y = compareResults y x) :=
  ⟨fun _ h => compareResults_refl_of_wf h,
   fun x y hx hy => compareResults_symm_of_wf (sizeOf x + sizeOf y) x y le_rfl hx hy⟩

/-- Witness for C8 at concrete well-formed values. -/
theorem compare_results_refl_and_symm_witness :
    compareResults (PyVal.dict [("k", PyVal.str " a"), ("n", PyVal.int 1)])
      (PyVal.dict [("k", PyVal.str " a"), ("n", PyVal.int 1)]) = true ∧
    compareResults (PyVal.list [PyVal.str " a"]) (PyVal.list [PyVal.str "a"]) =
      compareResults (PyVal.list [PyVal.str "a"]) (PyVal.list [PyVal.str " a"]) :=
  ⟨compare_results_refl_and_symm.1 _ (by decide),
   compare_results_refl_and_symm.2 _ _ (by decide) (by decide)⟩

/-- Witness for C7 at arities 0, 2 and 4. -/
theorem create_test_inputs_characterization_witness :
    create_test_inputs [] = [([], [])] ∧
    (create_test_inputs ["a", "b"]).length = 3 ∧
    create_test_inputs ["a", "b", "c", "d"] = [(List.replicate 4 PyVal.none, [])] :=
  ⟨(create_test_inputs_characterization []).1 rfl,
   ((create_test_inputs_characterization ["a", "b"]).2.1 (by decide) (by decide)).1,
   (create_test_inputs_characterization ["a", "b", "c", "d"]).2.2 (by decide)⟩

/-- Witness for C10: a single-underscore name bound by the source is
exposed, and the injected `math` module satisfies the attribute shape
condition. -/
theorem load_module_attrs_spec_witness :
    "_helper" ∈ load_module_safely_attrs ["_helper", "g"] ∧
    (("math" : String) ∈ load_module_safely_attrs ["_helper", "g"] ∨
      pyStartsWith "math" "__" = false ∨ ("math" : String) = "__name__" ∨
      ("math" : String) = "__file__") :=
  ⟨(load_module_attrs_spec ["_helper", "g"]).2.2.1 "_helper" (by decide) (by decide),
   Or.inr ((load_module_attrs_spec ["_helper", "g"]).2.2.2 "math"
     (by decide))⟩

end MIV
